import Mathlib

/-!
Verification of the level-ttl module (src/level-ttl.js): a TTL layer over an
ordered key-value store.  The store is embedded as an association list from
composite keys to values; the TTL operations (ttlon, ttloff, put, del, batch,
setTtl), the periodic sweep (startTtl / stopTtl) and the per-key lock usage are
translated from the source.  Host-store failures are injected through oracles
(a get oracle and a batch oracle), mirroring the places where the JS code can
receive a LEVEL_NOT_FOUND or another storage error.
-/

namespace LevelTtl

/-- User keys are modelled as strings (the tests use string keys). -/
abbrev K := String

/-- Errors carried on the asynchronous error channel are identified by a tag. -/
abbrev Err := String

/-- Modelled from the spec: `encoding.js` (createEncoding) is not in src/.
Spec section 4.1 requires an order-preserving codec for composite keys made of
namespace parts, an optional timestamp and the user key; we take the codec to
be the identity on segment lists, so a composite key is a list of segments. -/
inductive Seg where
  | str (s : String)
  | time (t : Nat)
deriving DecidableEq

/-- A composite (encoded) key: a list of segments. -/
abbrev CKey := List Seg

/-- Stored values: either raw user data or an encoded segment (the encoding of
a user key or of an expiry timestamp, as written by ttlon). -/
inductive Val where
  | user (s : String)
  | seg (x : Seg)
deriving DecidableEq

/-- Encoding of a user key as a stored value (source: encode(key)). -/
def encKey (k : K) : Val := Val.seg (Seg.str k)

/-- Encoding of an expiry timestamp as a stored value (source: encode(expiryTime)). -/
def encTime (t : Nat) : Val := Val.seg (Seg.time t)

/-- Modelled from the spec: decoding of a stored expiry timestamp
(source: decode(exp) in ttloff); garbage decodes to 0. -/
def decodeTime : Val → Nat
  | Val.seg (Seg.time t) => t
  | _ => 0

/-- Modelled from the spec: decoding of a stored user key
(source: decode(data.value) in the sweep); garbage decodes to the empty key. -/
def decodeKey : Val → K
  | Val.seg (Seg.str s) => s
  | _ => ""

/-- One operation of a levelup batch: {type: put, key, value} or {type: del, key}. -/
inductive BatchOp where
  | put (k : CKey) (v : Val)
  | del (k : CKey)
deriving DecidableEq

/-- A store is an association list from composite keys to values. -/
abbrev Store := List (CKey × Val)

/-- Point lookup in a store. -/
def storeGet : Store → CKey → Option Val
  | [], _ => none
  | p :: rest, k => if p.1 = k then some p.2 else storeGet rest k

/-- Deletion of a key from a store (removes every binding of the key). -/
def storeDel (st : Store) (q : CKey) : Store :=
  st.filter (fun p => !decide (p.1 = q))

/-- Insertion overwrites any previous binding of the key. -/
def storePut (st : Store) (k : CKey) (v : Val) : Store :=
  (k, v) :: storeDel st k

/-- Effect of one batch operation on a store. -/
def applyOp (st : Store) : BatchOp → Store
  | BatchOp.put k v => storePut st k v
  | BatchOp.del k => storeDel st k

/-- Effect of an atomic batch on a store (all operations, in order). -/
def applyBatch (st : Store) (ops : List BatchOp) : Store :=
  ops.foldl applyOp st

/-- Static configuration of the TTL layer (source: setup options).
baseNs is _prefixNs (empty iff a namespace was not configured), expiryNsSeg is
the expiryNamespace segment, hasSub tells whether a metadata sub-store is used. -/
structure Config where
  baseNs : List Seg
  expiryNsSeg : Seg
  hasSub : Bool
deriving DecidableEq

/-- Source: db._ttl._expiryNs = _prefixNs.concat(options.expiryNamespace). -/
def Config.expiryNs (c : Config) : CKey := c.baseNs ++ [c.expiryNsSeg]

/-- Source function prefixKey: the ExpiryMarker key of a user key. -/
def markerKey (c : Config) (k : K) : CKey := c.baseNs ++ [Seg.str k]

/-- Source function expiryKey: the ScheduleEntry key of a user key at a timestamp. -/
def expiryKey (c : Config) (t : Nat) (k : K) : CKey :=
  c.expiryNs ++ [Seg.time t, Seg.str k]

/-- The key at which the caller's data itself lives. -/
def dataKey (k : K) : CKey := [Seg.str k]

/-- The two physical stores: the primary store and the optional metadata
sub-store (unused when Config.hasSub is false). -/
structure DB where
  main : Store
  sub : Store
deriving DecidableEq

/-- The store holding the expiry metadata (source: sub || db). -/
def metaStore (c : Config) (db : DB) : Store :=
  if c.hasSub then db.sub else db.main

/-- Apply a batch to the metadata store (source: batchFn = sub ? sub.batch : db._ttl.batch). -/
def metaBatch (c : Config) (db : DB) (ops : List BatchOp) : DB :=
  if c.hasSub then ⟨db.main, applyBatch db.sub ops⟩
  else ⟨applyBatch db.main ops, db.sub⟩

/-- Result of a host-store get: a value, LEVEL_NOT_FOUND, or another storage error. -/
inductive GetRes where
  | found (v : Val)
  | notFound
  | ioErr (e : Err)
deriving DecidableEq

/-- The failure-free get oracle induced by the current metadata store. -/
def storeOracle (c : Config) (db : DB) : CKey → GetRes :=
  fun ck =>
    match storeGet (metaStore c db) ck with
    | some v => GetRes.found v
    | none => GetRes.notFound

/-- The failure-free batch oracle: every batch write succeeds. -/
def noFail : List BatchOp → Option Err := fun _ => none

/-- Observable outcome of one TTL-layer operation: the new stores, the list of
metadata batches it issued (in order), and the errors it emitted on the
asynchronous error channel. -/
structure Eff where
  db : DB
  issued : List (List BatchOp)
  emitted : List Err
deriving DecidableEq

/-- The deletions ttloff accumulates for one key: look up the ExpiryMarker;
found => delete the ScheduleEntry reconstructed from the stored timestamp and
the marker itself; LEVEL_NOT_FOUND => swallowed, nothing to clear; any other
error is rethrown (source lines 111-122). -/
def clearOpsFor (gO : CKey → GetRes) (c : Config) (key : K) : Except Err (List BatchOp) :=
  match gO (markerKey c key) with
  | GetRes.found v =>
    Except.ok [BatchOp.del (expiryKey c (decodeTime v) key), BatchOp.del (markerKey c key)]
  | GetRes.notFound => Except.ok []
  | GetRes.ioErr e => Except.error e

/-- The deletions ttloff accumulates over all keys; the first rethrown error
rejects the surrounding Promise.all. -/
def clearOpsE (gO : CKey → GetRes) (c : Config) : List K → Except Err (List BatchOp)
  | [] => Except.ok []
  | key :: rest =>
    match clearOpsFor gO c key with
    | Except.error e => Except.error e
    | Except.ok ops =>
      match clearOpsE gO c rest with
      | Except.error e => Except.error e
      | Except.ok more => Except.ok (ops ++ more)

/-- Source function ttloff (clearExpiry): collect the deletions; on a rethrown
lookup error, emit it and stop; otherwise, if there is anything to delete,
issue one metadata batch, emitting a batch failure instead of throwing.
ttloff never rejects its caller (its whole body is wrapped in try/catch). -/
def ttloffE (gO : CKey → GetRes) (bO : List BatchOp → Option Err)
    (c : Config) (db : DB) (keys : List K) : Eff :=
  match clearOpsE gO c keys with
  | Except.error e => ⟨db, [], [e]⟩
  | Except.ok ops =>
    if ops.isEmpty then ⟨db, [], []⟩
    else
      match bO ops with
      | none => ⟨metaBatch c db ops, [ops], []⟩
      | some e => ⟨db, [ops], [e]⟩

/-- The puts ttlon writes for its keys: for each key a ScheduleEntry holding
the encoded key and an ExpiryMarker holding the encoded timestamp
(source lines 90-93). -/
def schedOps (c : Config) (keys : List K) (t : Nat) : List BatchOp :=
  keys.foldl
    (fun acc key =>
      acc ++ [BatchOp.put (expiryKey c t key) (encKey key),
              BatchOp.put (markerKey c key) (encTime t)])
    []

/-- Source function ttlon (setExpiry): under the per-key lock, first ttloff,
then write the new pair for every key in one metadata batch; a batch failure
is emitted, not thrown (source lines 80-102). -/
def ttlonE (gO : CKey → GetRes) (bO : List BatchOp → Option Err)
    (c : Config) (db : DB) (keys : List K) (now ttl : Nat) : Eff :=
  let r1 := ttloffE gO bO c db keys
  let ops := schedOps c keys (now + ttl)
  if ops.isEmpty then r1
  else
    match bO ops with
    | none => ⟨metaBatch c r1.db ops, r1.issued ++ [ops], r1.emitted⟩
    | some e => ⟨r1.db, r1.issued ++ [ops], r1.emitted ++ [e]⟩

/-- ttlon run against the live store with no injected failures. -/
def ttlonRun (c : Config) (db : DB) (keys : List K) (now ttl : Nat) : Eff :=
  ttlonE (storeOracle c db) noFail c db keys now ttl

/-- ttloff run against the live store with no injected failures. -/
def ttloffRun (c : Config) (db : DB) (keys : List K) : Eff :=
  ttloffE (storeOracle c db) noFail c db keys

/-- Source lines 131-134 and 160-162: a configured defaultTTL > 0 replaces a
ttl option that is absent (undefined), but not an explicit ttl of 0. -/
def effectiveTtl (defTTL : Nat) (optTtl : Option Int) : Option Int :=
  match optTtl with
  | none => if 0 < defTTL then some (Int.ofNat defTTL) else none
  | some t => some t

/-- The guard options.ttl > 0. -/
def ttlPos : Option Int → Bool
  | some t => decide (0 < t)
  | none => false

/-- The effective ttl as a duration. -/
def ttlNat : Option Int → Nat
  | some t => t.toNat
  | none => 0

/-- Host data put applied to the primary store. -/
def dataPut (db : DB) (k : K) (v : Val) : DB :=
  ⟨storePut db.main (dataKey k) v, db.sub⟩

/-- Host data del applied to the primary store. -/
def dataDel (db : DB) (k : K) : DB :=
  ⟨storeDel db.main (dataKey k), db.sub⟩

/-- Source function put (lines 131-144): apply the default ttl, and when the
effective ttl is positive and key and value are non-null run the data put and
ttlon together; the call's outcome is that of the host data put (hostPutErr),
since ttlon never rejects.  Otherwise delegate the plain put. -/
def putE (c : Config) (defTTL : Nat) (db : DB) (key : Option K) (value : Option Val)
    (optTtl : Option Int) (now : Nat) (hostPutErr : Option Err)
    (bO : List BatchOp → Option Err) : Eff × Option Err :=
  let t := effectiveTtl defTTL optTtl
  match key, value with
  | some k, some v =>
    if ttlPos t then
      let db1 := if hostPutErr = none then dataPut db k v else db
      (ttlonE (storeOracle c db1) bO c db1 [k] now (ttlNat t), hostPutErr)
    else
      (⟨if hostPutErr = none then dataPut db k v else db, [], []⟩, hostPutErr)
  | _, _ => (⟨db, [], []⟩, hostPutErr)

/-- Source function del (lines 152-157): for a non-null key first ttloff, then
delegate the host delete; the outcome is that of the host delete. -/
def delE (gO : CKey → GetRes) (bO : List BatchOp → Option Err)
    (c : Config) (db : DB) (key : Option K) (hostDelErr : Option Err) : Eff × Option Err :=
  match key with
  | some k =>
    let r := ttloffE gO bO c db [k]
    let db2 := if hostDelErr = none then dataDel r.db k else r.db
    (⟨db2, r.issued, r.emitted⟩, hostDelErr)
  | none => (⟨db, [], []⟩, hostDelErr)

/-- Source function setTtl (lines 146-150): the injected ttl(key, delay)
method; only a positive delay on a non-null key triggers ttlon. -/
def setTtlE (gO : CKey → GetRes) (bO : List BatchOp → Option Err)
    (c : Config) (db : DB) (key : Option K) (ttl : Int) (now : Nat) : Eff :=
  match key with
  | some k => if 0 < ttl then ttlonE gO bO c db [k] now ttl.toNat else ⟨db, [], []⟩
  | none => ⟨db, [], []⟩

/-- One entry of a caller batch; typ mirrors the source field name type. -/
structure Entry where
  typ : String
  key : Option K
  value : Option Val
deriving DecidableEq

/-- Source lines 167-171: the keys receiving setExpiry: put entries with a
non-null key and a non-null value. -/
def onKeys (arr : List (Option Entry)) : List K :=
  arr.foldl
    (fun acc e =>
      match e with
      | some en =>
        if en.typ = "put" then
          match en.key, en.value with
          | some k, some _ => acc ++ [k]
          | _, _ => acc
        else acc
      | none => acc)
    []

/-- Source lines 167-171: the keys receiving clearExpiry: del entries with a
non-null key. -/
def offKeys (arr : List (Option Entry)) : List K :=
  arr.foldl
    (fun acc e =>
      match e with
      | some en =>
        if en.typ = "del" then
          match en.key with
          | some k => acc ++ [k]
          | none => acc
        else acc
      | none => acc)
    []

/-- Host semantics of one delegated batch entry on the primary store. -/
def applyEntry (st : Store) (e : Option Entry) : Store :=
  match e with
  | some en =>
    if en.typ = "put" then
      match en.key, en.value with
      | some k, some v => storePut st (dataKey k) v
      | _, _ => st
    else if en.typ = "del" then
      match en.key with
      | some k => storeDel st (dataKey k)
      | none => st
    else st
  | none => st

/-- Result of a caller batch: the effect on the stores, the entry array
delegated to the host store, and the call outcome. -/
structure BatchRes where
  eff : Eff
  delegated : List (Option Entry)
  outcome : Option Err
deriving DecidableEq

/-- Source function batch (lines 159-179): apply the default ttl; when the
effective ttl is positive, run ttlon on the put keys and ttloff on the del
keys; then delegate the full original entry array unmodified to the host
store; the outcome is that of the host batch. -/
def batchE (gO : CKey → GetRes) (bO : List BatchOp → Option Err)
    (c : Config) (defTTL : Nat) (db : DB) (arr : List (Option Entry))
    (optTtl : Option Int) (now : Nat) (hostBatchErr : Option Err) : BatchRes :=
  let t := effectiveTtl defTTL optTtl
  let e1 :=
    if ttlPos t then
      let onK := onKeys arr
      let offK := offKeys arr
      let r1 := if onK.isEmpty then (⟨db, [], []⟩ : Eff) else ttlonE gO bO c db onK now (ttlNat t)
      let r2 := if offK.isEmpty then (⟨r1.db, [], []⟩ : Eff) else ttloffE gO bO c r1.db offK
      (⟨r2.db, r1.issued ++ r2.issued, r1.emitted ++ r2.emitted⟩ : Eff)
    else (⟨db, [], []⟩ : Eff)
  let db2 := if hostBatchErr = none then (⟨arr.foldl applyEntry e1.db.main, e1.db.sub⟩ : DB) else e1.db
  ⟨⟨db2, e1.issued, e1.emitted⟩, arr, hostBatchErr⟩

/-- Modelled from the spec: segment order of the order-preserving codec
(spec section 4.1); string segments compare as strings, timestamp segments
numerically. -/
def segLe : Seg → Seg → Bool
  | Seg.str a, Seg.str b => decide (a ≤ b)
  | Seg.time a, Seg.time b => decide (a ≤ b)
  | Seg.str _, Seg.time _ => true
  | Seg.time _, Seg.str _ => false

/-- Modelled from the spec: composite keys compare lexicographically segment by
segment, a proper prefix sorting before its extensions. -/
def ckLe : CKey → CKey → Bool
  | [], _ => true
  | _ :: _, [] => false
  | a :: as, b :: bs => if a = b then ckLe as bs else segLe a b

/-- Source function buildQuery, lower bound: encode(expiryNs). -/
def queryGte (c : Config) : CKey := c.expiryNs

/-- Source function buildQuery, upper bound: encode(expiryNs.concat(new Date())). -/
def queryLte (c : Config) (now : Nat) : CKey := c.expiryNs ++ [Seg.time now]

/-- Whether a stored key falls inside the sweep's bounded range scan. -/
def rangeHit (c : Config) (now : Nat) (ck : CKey) : Bool :=
  ckLe (queryGte c) ck && ckLe ck (queryLte c now)

/-- The entries the sweep's EntryStream yields: every store entry inside the
range of buildQuery. -/
def scanDue (c : Config) (st : Store) (now : Nat) : List (CKey × Val) :=
  st.filter (fun p => rangeHit c now p.1)

/-- Source lines 36-44: for every streamed entry the sweep queues the deletion
of the ScheduleEntry itself and of the key's ExpiryMarker into subBatch, and
the deletion of the data entry into batch. -/
def sweepOps (c : Config) (st : Store) (now : Nat) : List BatchOp × List BatchOp :=
  (scanDue c st now).foldl
    (fun acc p =>
      let key := decodeKey p.2
      (acc.1 ++ [BatchOp.del p.1, BatchOp.del (markerKey c key)],
       acc.2 ++ [BatchOp.del (dataKey key)]))
    ([], [])

/-- Which store a sweep deletion batch is issued against. -/
inductive Target where
  | metaT
  | dataT
deriving DecidableEq

/-- Source lines 46-55: on scan end, nothing is issued when no data deletion
was queued; with a sub-store the metadata batch goes to the sub-store and then
the data batch to the primary store; without one, a single combined batch goes
to the primary store. -/
def sweepRun (c : Config) (db : DB) (now : Nat) : DB × List (Target × List BatchOp) :=
  let p := sweepOps c (metaStore c db) now
  if p.2.isEmpty then (db, [])
  else if c.hasSub then
    (⟨applyBatch db.main p.2, applyBatch db.sub p.1⟩,
     [(Target.metaT, p.1), (Target.dataT, p.2)])
  else
    (⟨applyBatch db.main (p.1 ++ p.2), db.sub⟩, [(Target.dataT, p.1 ++ p.2)])

/-- Control state of the sweeper: whether the interval timer is armed, the
_checkInProgress and _stopAfterCheck flags, and how many scans are open. -/
structure SweepCtl where
  timerActive : Bool
  checkInProgress : Bool
  stopAfterCheck : Bool
  scansInFlight : Nat
deriving DecidableEq

/-- Source lines 25-35: the interval handler sets _checkInProgress and opens a
new EntryStream; there is no guard on _checkInProgress, so every tick of an
armed timer opens a scan. -/
def tickCtl (s : SweepCtl) : SweepCtl :=
  if s.timerActive then ⟨true, true, s.stopAfterCheck, s.scansInFlight + 1⟩ else s

/-- Source function stopTtl (lines 70-78): defer the stop while a check is in
progress, otherwise clear the interval at once. -/
def stopCtl (s : SweepCtl) : SweepCtl :=
  if s.checkInProgress then ⟨s.timerActive, s.checkInProgress, true, s.scansInFlight⟩
  else ⟨false, s.checkInProgress, s.stopAfterCheck, s.scansInFlight⟩

/-- Source lines 56-62: the stream close handler clears _checkInProgress and,
when a stop was deferred, runs stopTtl (which now clears the interval) and
resets _stopAfterCheck. -/
def closeCtl (s : SweepCtl) : SweepCtl :=
  if s.stopAfterCheck then ⟨false, false, false, s.scansInFlight - 1⟩
  else ⟨s.timerActive, false, s.stopAfterCheck, s.scansInFlight - 1⟩

/-- Combined system state: sweeper control plus the stores. -/
structure SysState where
  ctl : SweepCtl
  db : DB
deriving DecidableEq

/-- Completion of a scan: the end handler issues the deletion batches and the
close handler then updates the control flags. -/
def scanComplete (c : Config) (now : Nat) (s : SysState) : SysState :=
  ⟨closeCtl s.ctl, (sweepRun c s.db now).1⟩

/-- Externally visible actions of an index-maintenance call, in program order:
lock acquisition and release, metadata gets and batches, error emissions, and
the delegated host delete. -/
inductive Act where
  | acq (keys : List K)
  | rel
  | mget (ck : CKey)
  | mbatch (ops : List BatchOp)
  | emit (e : Err)
  | hostDel (k : Option K)
deriving DecidableEq

/-- Action trace of ttloff: the marker lookups, then either the emission of a
rethrown lookup error, or the metadata batch (if any) and a possible emission
of its failure.  No lock action appears: ttloff does not touch the lock. -/
def ttloffTrace (gO : CKey → GetRes) (bO : List BatchOp → Option Err)
    (c : Config) (keys : List K) : List Act :=
  let gets := keys.map (fun k => Act.mget (markerKey c k))
  match clearOpsE gO c keys with
  | Except.error e => gets ++ [Act.emit e]
  | Except.ok ops =>
    if ops.isEmpty then gets
    else
      match bO ops with
      | none => gets ++ [Act.mbatch ops]
      | some e => gets ++ [Act.mbatch ops, Act.emit e]

/-- Action trace of ttlon: acquire the per-key locks, run the ttloff sequence,
issue the put batch (emitting a failure instead of throwing), and release the
locks; release is the last action on every path (source lines 87-101). -/
def ttlonTrace (gO : CKey → GetRes) (bO : List BatchOp → Option Err)
    (c : Config) (keys : List K) (now ttl : Nat) : List Act :=
  let ops := schedOps c keys (now + ttl)
  Act.acq keys ::
    (ttloffTrace gO bO c keys ++
      (if ops.isEmpty then []
       else
         match bO ops with
         | none => [Act.mbatch ops]
         | some e => [Act.mbatch ops, Act.emit e]) ++
      [Act.rel])

/-- Action trace of del: the ttloff sequence (with no lock around it), then
the delegated host delete (source lines 152-157). -/
def delTrace (gO : CKey → GetRes) (bO : List BatchOp → Option Err)
    (c : Config) (key : Option K) : List Act :=
  match key with
  | some k => ttloffTrace gO bO c [k] ++ [Act.hostDel key]
  | none => [Act.hostDel key]

/-- The timestamp, if any, at which a composite key schedules the expiry of
the given user key. -/
def schedTime (c : Config) (k : K) (ck : CKey) : Option Nat :=
  if ck.take c.expiryNs.length = c.expiryNs then
    match ck.drop c.expiryNs.length with
    | [Seg.time t, Seg.str k2] => if k2 = k then some t else none
    | _ => none
  else none

/-- Whether a composite key is a ScheduleEntry key for the given user key. -/
def isSchedFor (c : Config) (k : K) (ck : CKey) : Bool :=
  (schedTime c k ck).isSome

/-- All ScheduleEntry records of a user key present in a store. -/
def schedFor (c : Config) (st : Store) (k : K) : Store :=
  st.filter (fun p => isSchedFor c k p.1)

/-- The pair invariant of the spec data model: a key has either no
ExpiryMarker and no ScheduleEntry, or exactly one of each with the same
timestamp. -/
def goodFor (c : Config) (st : Store) (k : K) : Prop :=
  (storeGet st (markerKey c k) = none ∧ schedFor c st k = []) ∨
  (∃ t v, storeGet st (markerKey c k) = some (encTime t) ∧
    schedFor c st k = [(expiryKey c t k, v)])

/-- N successive renewals of one key: each runs ttlon at its own clock value
and ttl against the then-current stores. -/
def renewAll (c : Config) (db : DB) (k : K) (rs : List (Nat × Nat)) : DB :=
  rs.foldl (fun d nt => (ttlonRun c d [k] nt.1 nt.2).db) db

/-- The expiry time of the last renewal in a list of (now, ttl) renewals. -/
def lastExpiry (rs : List (Nat × Nat)) : Nat :=
  match rs.getLast? with
  | some nt => nt.1 + nt.2
  | none => 0

/-- Concrete configuration with metadata in the primary store (the default
namespace layout: namespace ttl, expiryNamespace x). -/
def cM : Config := ⟨[Seg.str "ttl"], Seg.str "x", false⟩

/-- Concrete configuration with a metadata sub-store (namespace empty). -/
def cS : Config := ⟨[], Seg.str "x", true⟩

/-- The empty pair of stores. -/
def dbEmpty : DB := ⟨[], []⟩

lemma storeGet_del (st : Store) (q k : CKey) :
    storeGet (storeDel st q) k = if k = q then none else storeGet st k := by
  induction st with
  | nil => simp [storeDel, storeGet]
  | cons p rest ih =>
    by_cases hpq : p.1 = q
    · have h1 : storeDel (p :: rest) q = storeDel rest q := by
        simp [storeDel, List.filter_cons, hpq]
      by_cases hkq : k = q
      · rw [h1, ih]
        simp [hkq]
      · have hpk : ¬ p.1 = k := by rw [hpq]; exact fun hh => hkq hh.symm
        simp [h1, ih, hkq, storeGet, hpk]
    · have h1 : storeDel (p :: rest) q = p :: storeDel rest q := by
        simp [storeDel, List.filter_cons, hpq]
      by_cases hpk : p.1 = k
      · have hkq : ¬ k = q := fun hh => hpq (hpk.trans hh)
        simp [h1, storeGet, hpk, hkq]
      · simp [h1, storeGet, hpk, ih]

lemma storeGet_put (st : Store) (q : CKey) (v : Val) (k : CKey) :
    storeGet (storePut st q v) k = if k = q then some v else storeGet st k := by
  by_cases h : q = k
  · simp [storePut, storeGet, h]
  · have hkq : ¬ k = q := fun hh => h hh.symm
    simp [storePut, storeGet, h, storeGet_del, hkq]

lemma schedFor_del (c : Config) (st : Store) (q : CKey) (k : K) :
    schedFor c (storeDel st q) k
      = (schedFor c st k).filter (fun p => !decide (p.1 = q)) := by
  simp only [schedFor, storeDel, List.filter_filter]
  exact List.filter_congr (fun p _ => by rw [Bool.and_comm])

lemma schedFor_put (c : Config) (st : Store) (q : CKey) (v : Val) (k : K) :
    schedFor c (storePut st q v) k
      = if isSchedFor c k q then
          (q, v) :: (schedFor c st k).filter (fun p => !decide (p.1 = q))
        else (schedFor c st k).filter (fun p => !decide (p.1 = q)) := by
  by_cases h : isSchedFor c k q = true
  · rw [if_pos h, storePut, show schedFor c ((q, v) :: storeDel st q) k
        = (q, v) :: schedFor c (storeDel st q) k from by simp [schedFor, List.filter_cons, h],
      schedFor_del]
  · rw [if_neg h, storePut, show schedFor c ((q, v) :: storeDel st q) k
        = schedFor c (storeDel st q) k from by simp [schedFor, List.filter_cons, h],
      schedFor_del]

lemma schedTime_marker (c : Config) (k k2 : K) :
    schedTime c k (markerKey c k2) = none := by
  have hd : (markerKey c k2).drop c.expiryNs.length = [] := by
    apply List.drop_eq_nil_of_le
    simp [markerKey, Config.expiryNs]
  unfold schedTime
  rw [hd]
  split <;> rfl

lemma schedTime_expiry (c : Config) (k : K) (t : Nat) (k2 : K) :
    schedTime c k (expiryKey c t k2) = if k2 = k then some t else none := by
  unfold schedTime expiryKey
  rw [List.take_left, List.drop_left]
  simp

lemma markerKey_ne_expiryKey (c : Config) (k : K) (t : Nat) (k2 : K) :
    markerKey c k ≠ expiryKey c t k2 := by
  intro h
  have := congrArg List.length h
  simp [markerKey, expiryKey, Config.expiryNs] at this

lemma metaStore_metaBatch (c : Config) (db : DB) (ops : List BatchOp) :
    metaStore c (metaBatch c db ops) = applyBatch (metaStore c db) ops := by
  cases h : c.hasSub <;> simp [metaStore, metaBatch, h]

/-- Claim C4, counterexample: a timer tick arriving while a scan is in
progress (checkInProgress true, one scan in flight) is not a no-op: the
handler opens a second scan, so two sweep scans are in flight at once. -/
theorem tick_while_scanning_not_noop :
    tickCtl ⟨true, true, false, 1⟩ ≠ ⟨true, true, false, 1⟩ ∧
    (tickCtl ⟨true, true, false, 1⟩).scansInFlight = 2 := by
  constructor <;> decide

/-- Claim C4 (amended): the interval handler has no guard on the scanning
state: every tick of an armed timer sets checkInProgress and opens one more
scan, whatever the current state, so ticks during a scan start overlapping
scans instead of being ignored. -/
theorem tick_always_opens_scan (s : SweepCtl) (h : s.timerActive = true) :
    tickCtl s = ⟨true, true, s.stopAfterCheck, s.scansInFlight + 1⟩ := by
  simp [tickCtl, h]

/-- Witness for tick_always_opens_scan. -/
theorem tick_always_opens_scan_witness :
    tickCtl ⟨true, false, false, 0⟩ = ⟨true, true, false, 1⟩ :=
  tick_always_opens_scan ⟨true, false, false, 0⟩ rfl

/-- Claim C8: stop is a pure state update (non-blocking); requested while
idle it disarms the timer at once; requested while a scan is in flight it
only sets the deferred flag, leaving the timer armed, and the completion of
that scan applies the scan's deletion batches and then disarms the timer. -/
theorem stop_deferred_until_scan_completes (c : Config) (db : DB) (now : Nat)
    (sIdle sScan : SweepCtl) (h1 : sIdle.checkInProgress = false)
    (h2 : sScan.checkInProgress = true) :
    stopCtl sIdle = ⟨false, sIdle.checkInProgress, sIdle.stopAfterCheck, sIdle.scansInFlight⟩ ∧
    (stopCtl sScan).timerActive = sScan.timerActive ∧
    (stopCtl sScan).stopAfterCheck = true ∧
    scanComplete c now ⟨stopCtl sScan, db⟩ =
      ⟨⟨false, false, false, sScan.scansInFlight - 1⟩, (sweepRun c db now).1⟩ := by
  refine ⟨?_, ?_, ?_, ?_⟩ <;> simp [stopCtl, closeCtl, scanComplete, h1, h2]

/-- Witness for stop_deferred_until_scan_completes. -/
theorem stop_deferred_until_scan_completes_witness :
    stopCtl ⟨true, false, false, 0⟩ = ⟨false, false, false, 0⟩ ∧
    (stopCtl ⟨true, true, false, 1⟩).timerActive = true ∧
    (stopCtl ⟨true, true, false, 1⟩).stopAfterCheck = true ∧
    scanComplete cM 5 ⟨stopCtl ⟨true, true, false, 1⟩, dbEmpty⟩ =
      ⟨⟨false, false, false, 0⟩, (sweepRun cM dbEmpty 5).1⟩ :=
  stop_deferred_until_scan_completes cM dbEmpty 5 ⟨true, false, false, 0⟩
    ⟨true, true, false, 1⟩ rfl rfl

/-- Claim C9: clearExpiry of a key whose ExpiryMarker is absent is an
error-free no-op: the LEVEL_NOT_FOUND of the marker lookup is swallowed, no
deletion batch is issued, nothing is emitted and the stores are unchanged;
repeating the call therefore changes nothing either (idempotence). -/
theorem clearExpiry_absent_noop (bO : List BatchOp → Option Err) (c : Config)
    (db : DB) (k : K)
    (h : storeGet (metaStore c db) (markerKey c k) = none) :
    ttloffE (storeOracle c db) bO c db [k] = ⟨db, [], []⟩ := by
  simp [ttloffE, clearOpsE, clearOpsFor, storeOracle, h]

/-- Witness for clearExpiry_absent_noop. -/
theorem clearExpiry_absent_noop_witness :
    ttloffE (storeOracle cM dbEmpty) noFail cM dbEmpty ["nope"] = ⟨dbEmpty, [], []⟩ :=
  clearExpiry_absent_noop noFail cM dbEmpty "nope" rfl

/-- Claim C10: the injected ttl(key, delay) method with a null key or a
non-positive delay returns without error, issues no metadata batch, emits
nothing, and leaves the stores unchanged. -/
theorem setTtl_invalid_noop (gO : CKey → GetRes) (bO : List BatchOp → Option Err)
    (c : Config) (db : DB) (key : Option K) (ttl : Int) (now : Nat)
    (h : key = none ∨ ttl ≤ 0) :
    setTtlE gO bO c db key ttl now = ⟨db, [], []⟩ := by
  rcases h with h | h
  · simp [setTtlE, h]
  · cases key with
    | none => simp [setTtlE]
    | some k => simp [setTtlE, show ¬ (0 : Int) < ttl from by omega]

/-- Witness for setTtl_invalid_noop. -/
theorem setTtl_invalid_noop_witness :
    setTtlE (storeOracle cM dbEmpty) noFail cM dbEmpty (some "a") 0 5 = ⟨dbEmpty, [], []⟩ :=
  setTtl_invalid_noop (storeOracle cM dbEmpty) noFail cM dbEmpty (some "a") 0 5
    (Or.inr (by decide))

lemma getLast?_cons_append_singleton {α : Type} (x a : α) (l1 l2 : List α) :
    (x :: (l1 ++ l2 ++ [a])).getLast? = some a := by
  rw [show x :: (l1 ++ l2 ++ [a]) = (x :: (l1 ++ l2)) ++ [a] from by simp,
    List.getLast?_append_cons]
  rfl

/-- Claim C5, counterexample: the clearExpiry sequence run by del mutates the
expiry index (it issues a metadata deletion batch) with no lock action in its
trace at all: del calls ttloff directly, and only ttlon touches the lock. -/
theorem clear_from_del_runs_unlocked :
    delTrace (fun _ => GetRes.found (encTime 100)) noFail cM (some "b") =
      [Act.mget (markerKey cM "b"),
       Act.mbatch [BatchOp.del (expiryKey cM 100 "b"), BatchOp.del (markerKey cM "b")],
       Act.hostDel (some "b")] := by
  rfl

/-- Claim C5 (amended): setExpiry (ttlon) does scope its whole clear-then-write
sequence inside the per-key lock: whatever the lookup and batch oracles return,
the first action of its trace is the lock acquisition for its keys and the
last action is the release, so the lock is released on every exit path
including failures.  clearExpiry reached from del or batch, however, runs
without the lock (see the counterexample), so only setExpiry calls are
serialized per key. -/
theorem ttlon_lock_scoped (gO : CKey → GetRes) (bO : List BatchOp → Option Err)
    (c : Config) (keys : List K) (now ttl : Nat) :
    (ttlonTrace gO bO c keys now ttl).head? = some (Act.acq keys) ∧
    (ttlonTrace gO bO c keys now ttl).getLast? = some Act.rel := by
  constructor
  · rfl
  · unfold ttlonTrace
    exact getLast?_cons_append_singleton _ _ _ _

/-- Claim C6, counterexample: a storage failure other than not-found during
the clearExpiry lookup of a caller-initiated del does not reject the call:
the del resolves with the host delete's success while the failure is emitted
on the asynchronous error channel. -/
theorem index_failure_rejects_caller_false :
    (delE (fun _ => GetRes.ioErr "disk") noFail cM
        ⟨[(dataKey "a", Val.user "v")], []⟩ (some "a") none).2 = none ∧
    (delE (fun _ => GetRes.ioErr "disk") noFail cM
        ⟨[(dataKey "a", Val.user "v")], []⟩ (some "a") none).1.emitted = ["disk"] := by
  constructor <;> rfl

/-- Claim C6 (amended): a storage failure in the expiry-index maintenance
other than a not-found during the clearExpiry lookup never rejects the
caller's call: ttloff and ttlon catch it and emit it on the asynchronous
error channel, so a del's outcome is exactly the host delete's outcome (with
the lookup failure emitted and no metadata batch issued), and a put's outcome
is exactly the host data put's outcome whatever the index batches do. -/
theorem index_failure_emitted_not_rejected (gO : CKey → GetRes)
    (bO bO2 : List BatchOp → Option Err) (c : Config) (db : DB) (k : K) (v : Val)
    (defTTL : Nat) (optTtl : Option Int) (now : Nat)
    (hostDelErr hostPutErr : Option Err) (e : Err)
    (h : gO (markerKey c k) = GetRes.ioErr e) :
    (delE gO bO c db (some k) hostDelErr).2 = hostDelErr ∧
    (delE gO bO c db (some k) hostDelErr).1.emitted = [e] ∧
    (delE gO bO c db (some k) hostDelErr).1.issued = [] ∧
    (putE c defTTL db (some k) (some v) optTtl now hostPutErr bO2).2 = hostPutErr := by
  refine ⟨rfl, ?_, ?_, ?_⟩
  · simp [delE, ttloffE, clearOpsE, clearOpsFor, h]
  · simp [delE, ttloffE, clearOpsE, clearOpsFor, h]
  · by_cases hp : ttlPos (effectiveTtl defTTL optTtl) = true <;> simp [putE, hp]

/-- Witness for index_failure_emitted_not_rejected. -/
theorem index_failure_emitted_not_rejected_witness :
    (delE (fun _ => GetRes.ioErr "disk") noFail cM dbEmpty (some "a") none).2 = none ∧
    (delE (fun _ => GetRes.ioErr "disk") noFail cM dbEmpty (some "a") none).1.emitted = ["disk"] ∧
    (delE (fun _ => GetRes.ioErr "disk") noFail cM dbEmpty (some "a") none).1.issued = [] ∧
    (putE cM 0 dbEmpty (some "a") (some (Val.user "v")) (some 5) 0 none noFail).2 = none :=
  index_failure_emitted_not_rejected (fun _ => GetRes.ioErr "disk") noFail noFail cM
    dbEmpty "a" (Val.user "v") 0 (some 5) 0 none none "disk" rfl

lemma ckLe_self_append (p l : CKey) : ckLe p (p ++ l) = true := by
  induction p with
  | nil => rfl
  | cons a as ih => simp [ckLe, ih]

lemma ckLe_append_left (p l1 l2 : CKey) : ckLe (p ++ l1) (p ++ l2) = ckLe l1 l2 := by
  induction p with
  | nil => rfl
  | cons a as ih => simp [ckLe, ih]

lemma rangeHit_expiry (c : Config) (now t : Nat) (k : K) :
    rangeHit c now (expiryKey c t k) = decide (t < now) := by
  unfold rangeHit queryGte queryLte expiryKey
  rw [ckLe_self_append, ckLe_append_left]
  by_cases h : t = now
  · subst h
    simp [ckLe]
  · have hne : Seg.time t ≠ Seg.time now := by simpa using h
    have : (t ≤ now) = (t < now) := by
      apply propext
      omega
    simp [ckLe, hne, segLe, this]

lemma foldl_pair_append {α β γ : Type} (g1 : α → List β) (g2 : α → List γ)
    (l : List α) (acc : List β × List γ) :
    l.foldl (fun a x => (a.1 ++ g1 x, a.2 ++ g2 x)) acc
      = (acc.1 ++ (l.map g1).flatten, acc.2 ++ (l.map g2).flatten) := by
  induction l generalizing acc with
  | nil => simp
  | cons x xs ih => simp [ih]

lemma flatten_map_singleton {α β : Type} (f : α → β) (l : List α) :
    (l.map (fun x => [f x])).flatten = l.map f := by
  induction l with
  | nil => rfl
  | cons x xs ih => simp [ih]

lemma sweepOps_eq (c : Config) (st : Store) (now : Nat) :
    sweepOps c st now =
      (((scanDue c st now).map
          (fun p => [BatchOp.del p.1, BatchOp.del (markerKey c (decodeKey p.2))])).flatten,
       (scanDue c st now).map (fun p => BatchOp.del (dataKey (decodeKey p.2)))) := by
  unfold sweepOps
  rw [show (fun (acc : List BatchOp × List BatchOp) (p : CKey × Val) =>
        (acc.1 ++ [BatchOp.del p.1, BatchOp.del (markerKey c (decodeKey p.2))],
         acc.2 ++ [BatchOp.del (dataKey (decodeKey p.2))]))
      = (fun (acc : List BatchOp × List BatchOp) (p : CKey × Val) =>
        (acc.1 ++ (fun q : CKey × Val =>
            [BatchOp.del q.1, BatchOp.del (markerKey c (decodeKey q.2))]) p,
         acc.2 ++ (fun q : CKey × Val => [BatchOp.del (dataKey (decodeKey q.2))]) p))
      from rfl,
    foldl_pair_append, flatten_map_singleton]
  simp

/-- Claim C2, counterexample: a ScheduleEntry whose expiry timestamp equals
the scan's current time is not matched by the bounded range scan (its key
strictly extends the upper bound expiryNs ++ now), so deletion of entries with
timestamp equal to now waits for a later tick; the claimed matching of every
entry with timestamp less than or equal to now is false at timestamp 5, now 5. -/
theorem sweep_matches_equal_timestamp_false :
    scanDue cM [(expiryKey cM 5 "bar", encKey "bar")] 5 = [] ∧
    scanDue cM [(expiryKey cM 5 "bar", encKey "bar")] 6
      = [(expiryKey cM 5 "bar", encKey "bar")] := by
  constructor <;> rfl

/-- Claim C2 (amended): the bounded range scan matches a ScheduleEntry exactly
when its expiry timestamp is strictly below the current time; for every
matched entry the sweep queues exactly three deletions: the ScheduleEntry
itself and the key's ExpiryMarker into the metadata batch, and the DataEntry
into the data batch; and on completion, when any data deletion was queued, a
configured sub-store receives the metadata batch before the primary store's
data batch, while without a sub-store a single combined batch goes to the
primary store. -/
theorem sweep_scan_and_batches (c : Config) (db : DB) (now : Nat)
    (hne : (sweepOps c (metaStore c db) now).2 ≠ []) :
    (∀ t k2, rangeHit c now (expiryKey c t k2) = decide (t < now)) ∧
    (∀ st : Store, sweepOps c st now =
      (((scanDue c st now).map
          (fun p => [BatchOp.del p.1, BatchOp.del (markerKey c (decodeKey p.2))])).flatten,
       (scanDue c st now).map (fun p => BatchOp.del (dataKey (decodeKey p.2))))) ∧
    (sweepRun c db now).2 =
      (if c.hasSub then
        [(Target.metaT, (sweepOps c (metaStore c db) now).1),
         (Target.dataT, (sweepOps c (metaStore c db) now).2)]
      else
        [(Target.dataT,
          (sweepOps c (metaStore c db) now).1 ++ (sweepOps c (metaStore c db) now).2)]) := by
  refine ⟨fun t k2 => rangeHit_expiry c now t k2, fun st => sweepOps_eq c st now, ?_⟩
  unfold sweepRun
  rw [if_neg (by simpa using hne)]
  by_cases h : c.hasSub = true <;> simp [h]

/-- Witness for sweep_scan_and_batches: one due ScheduleEntry (timestamp 3,
scan at 5) in a sub-store configuration; the metadata batch is issued first,
then the data batch. -/
theorem sweep_scan_and_batches_witness :
    (sweepRun cS ⟨[(dataKey "bar", Val.user "v")],
        [(expiryKey cS 3 "bar", encKey "bar")]⟩ 5).2 =
      [(Target.metaT, [BatchOp.del (expiryKey cS 3 "bar"), BatchOp.del (markerKey cS "bar")]),
       (Target.dataT, [BatchOp.del (dataKey "bar")])] := by
  have h := sweep_scan_and_batches cS
    ⟨[(dataKey "bar", Val.user "v")],
      [(expiryKey cS 3 "bar", encKey "bar")]⟩ 5
    (by decide)
  rw [h.2.2]
  rfl

/-- The key contributed to onKeys by one batch entry, if any. -/
def onPick (e : Option Entry) : Option K :=
  match e with
  | some en =>
    if en.typ = "put" then
      match en.key, en.value with
      | some k, some _ => some k
      | _, _ => none
    else none
  | none => none

/-- The key contributed to offKeys by one batch entry, if any. -/
def offPick (e : Option Entry) : Option K :=
  match e with
  | some en => if en.typ = "del" then en.key else none
  | none => none

lemma foldl_opt_append {α β : Type} (g : α → Option β) (l : List α) (acc : List β) :
    l.foldl (fun a x => a ++ (g x).toList) acc = acc ++ l.filterMap g := by
  induction l generalizing acc with
  | nil => simp
  | cons x xs ih =>
    cases h : g x <;> simp [ih, h, List.filterMap_cons]

lemma onKeys_eq (arr : List (Option Entry)) : onKeys arr = arr.filterMap onPick := by
  have hstep : (fun (acc : List K) (e : Option Entry) =>
      match e with
      | some en =>
        if en.typ = "put" then
          match en.key, en.value with
          | some k, some _ => acc ++ [k]
          | _, _ => acc
        else acc
      | none => acc)
      = fun (acc : List K) (e : Option Entry) => acc ++ (onPick e).toList := by
    funext acc e
    cases e with
    | none => simp [onPick]
    | some en =>
      by_cases h : en.typ = "put"
      · cases hk : en.key <;> cases hv : en.value <;> simp [onPick, h, hk, hv]
      · simp [onPick, h]
  rw [onKeys, hstep, foldl_opt_append]
  rfl

lemma offKeys_eq (arr : List (Option Entry)) : offKeys arr = arr.filterMap offPick := by
  have hstep : (fun (acc : List K) (e : Option Entry) =>
      match e with
      | some en =>
        if en.typ = "del" then
          match en.key with
          | some k => acc ++ [k]
          | none => acc
        else acc
      | none => acc)
      = fun (acc : List K) (e : Option Entry) => acc ++ (offPick e).toList := by
    funext acc e
    cases e with
    | none => simp [offPick]
    | some en =>
      by_cases h : en.typ = "del"
      · cases hk : en.key <;> simp [offPick, h, hk]
      · simp [offPick, h]
  rw [offKeys, hstep, foldl_opt_append]
  rfl

lemma onPick_eq_some (e : Option Entry) (k : K) :
    onPick e = some k
      ↔ ∃ en, e = some en ∧ en.typ = "put" ∧ en.key = some k ∧ en.value ≠ none := by
  cases e with
  | none => simp [onPick]
  | some en =>
    by_cases h : en.typ = "put"
    · cases hk : en.key <;> cases hv : en.value <;> simp [onPick, h, hk, hv]
    · simp [onPick, h]

lemma offPick_eq_some (e : Option Entry) (k : K) :
    offPick e = some k ↔ ∃ en, e = some en ∧ en.typ = "del" ∧ en.key = some k := by
  cases e with
  | none => simp [offPick]
  | some en =>
    by_cases h : en.typ = "del" <;> simp [offPick, h]

lemma mem_onKeys (arr : List (Option Entry)) (k : K) :
    k ∈ onKeys arr
      ↔ ∃ en, some en ∈ arr ∧ en.typ = "put" ∧ en.key = some k ∧ en.value ≠ none := by
  rw [onKeys_eq, List.mem_filterMap]
  constructor
  · rintro ⟨e, he, hp⟩
    rcases (onPick_eq_some e k).1 hp with ⟨en, rfl, h1, h2, h3⟩
    exact ⟨en, he, h1, h2, h3⟩
  · rintro ⟨en, he, h1, h2, h3⟩
    exact ⟨some en, he, (onPick_eq_some _ k).2 ⟨en, rfl, h1, h2, h3⟩⟩

lemma mem_offKeys (arr : List (Option Entry)) (k : K) :
    k ∈ offKeys arr ↔ ∃ en, some en ∈ arr ∧ en.typ = "del" ∧ en.key = some k := by
  rw [offKeys_eq, List.mem_filterMap]
  constructor
  · rintro ⟨e, he, hp⟩
    rcases (offPick_eq_some e k).1 hp with ⟨en, rfl, h1, h2⟩
    exact ⟨en, he, h1, h2⟩
  · rintro ⟨en, he, h1, h2⟩
    exact ⟨some en, he, (offPick_eq_some _ k).2 ⟨en, rfl, h1, h2⟩⟩

/-- Store with a live TTL pair for key b plus b's data, used for the batch
partition scenarios. -/
def dbC3 : DB :=
  ⟨[(markerKey cM "b", encTime 100), (expiryKey cM 100 "b", encKey "b"),
    (dataKey "b", Val.user "vb")], []⟩

/-- A mixed put/del entry array: a put of key a and a del of key b. -/
def arrC3 : List (Option Entry) :=
  [some ⟨"put", some "a", some (Val.user "va")⟩, some ⟨"del", some "b", none⟩]

/-- Claim C3, counterexample: in a mixed put/del batch with no ttl option and
no default TTL, the del entry's expiry metadata is NOT cleared: the whole
index-maintenance block is guarded by the effective ttl being positive, so no
metadata batch is issued and key b's ExpiryMarker survives the batch. -/
theorem batch_del_cleared_without_ttl_false :
    (batchE (storeOracle cM dbC3) noFail cM 0 dbC3 arrC3 none 0 none).eff.issued = [] ∧
    storeGet ((batchE (storeOracle cM dbC3) noFail cM 0 dbC3 arrC3 none 0 none).eff.db.main)
        (markerKey cM "b") = some (encTime 100) := by
  constructor <;> rfl

/-- Claim C3 (amended): when (and only when) the batch's effective ttl is
positive, the entries are partitioned: setExpiry receives exactly the keys of
put entries with a non-null key and non-null value, clearExpiry exactly the
keys of del entries with a non-null key, ttlon runs on the former and ttloff
on the latter, and the full original entry array is delegated unmodified to
the underlying store with the host batch's own outcome; without a positive
effective ttl no index maintenance happens at all (see the counterexample). -/
theorem batch_ttl_partition (gO : CKey → GetRes) (bO : List BatchOp → Option Err)
    (c : Config) (defTTL : Nat) (db : DB) (arr : List (Option Entry))
    (optTtl : Option Int) (now : Nat) (hErr : Option Err)
    (hpos : ttlPos (effectiveTtl defTTL optTtl) = true) :
    (∀ k, k ∈ onKeys arr
      ↔ ∃ en, some en ∈ arr ∧ en.typ = "put" ∧ en.key = some k ∧ en.value ≠ none) ∧
    (∀ k, k ∈ offKeys arr
      ↔ ∃ en, some en ∈ arr ∧ en.typ = "del" ∧ en.key = some k) ∧
    (batchE gO bO c defTTL db arr optTtl now hErr).delegated = arr ∧
    (batchE gO bO c defTTL db arr optTtl now hErr).outcome = hErr ∧
    (batchE gO bO c defTTL db arr optTtl now hErr).eff =
      (let r1 := if (onKeys arr).isEmpty then (⟨db, [], []⟩ : Eff)
                 else ttlonE gO bO c db (onKeys arr) now (ttlNat (effectiveTtl defTTL optTtl));
       let r2 := if (offKeys arr).isEmpty then (⟨r1.db, [], []⟩ : Eff)
                 else ttloffE gO bO c r1.db (offKeys arr);
       (⟨if hErr = none then ⟨arr.foldl applyEntry r2.db.main, r2.db.sub⟩ else r2.db,
         r1.issued ++ r2.issued, r1.emitted ++ r2.emitted⟩ : Eff)) := by
  refine ⟨mem_onKeys arr, mem_offKeys arr, rfl, rfl, ?_⟩
  unfold batchE
  simp only [hpos, if_true]

/-- Witness for batch_ttl_partition: the mixed batch under ttl 60. -/
theorem batch_ttl_partition_witness :
    ("a" ∈ onKeys arrC3
      ↔ ∃ en, some en ∈ arrC3 ∧ en.typ = "put" ∧ en.key = some "a" ∧ en.value ≠ none) ∧
    ("b" ∈ offKeys arrC3
      ↔ ∃ en, some en ∈ arrC3 ∧ en.typ = "del" ∧ en.key = some "b") ∧
    (batchE (storeOracle cM dbC3) noFail cM 0 dbC3 arrC3 (some 60) 0 none).delegated = arrC3 ∧
    (batchE (storeOracle cM dbC3) noFail cM 0 dbC3 arrC3 (some 60) 0 none).outcome = none ∧
    (batchE (storeOracle cM dbC3) noFail cM 0 dbC3 arrC3 (some 60) 0 none).eff =
      (let r1 := if (onKeys arrC3).isEmpty then (⟨dbC3, [], []⟩ : Eff)
                 else ttlonE (storeOracle cM dbC3) noFail cM dbC3 (onKeys arrC3) 0
                   (ttlNat (effectiveTtl 0 (some 60)));
       let r2 := if (offKeys arrC3).isEmpty then (⟨r1.db, [], []⟩ : Eff)
                 else ttloffE (storeOracle cM dbC3) noFail cM r1.db (offKeys arrC3);
       (⟨if (none : Option Err) = none then ⟨arrC3.foldl applyEntry r2.db.main, r2.db.sub⟩
           else r2.db,
         r1.issued ++ r2.issued, r1.emitted ++ r2.emitted⟩ : Eff)) := by
  have h := batch_ttl_partition (storeOracle cM dbC3) noFail cM 0 dbC3 arrC3
    (some 60) 0 none (by decide)
  exact ⟨h.1 "a", h.2.1 "b", h.2.2.1, h.2.2.2.1, h.2.2.2.2⟩

/-- The composite key an operation of a batch touches. -/
def opKey : BatchOp → CKey
  | BatchOp.put k _ => k
  | BatchOp.del k => k

lemma storeGet_applyBatch_ne (st : Store) (ops : List BatchOp) (q : CKey)
    (h : ∀ op ∈ ops, opKey op ≠ q) :
    storeGet (applyBatch st ops) q = storeGet st q := by
  induction ops generalizing st with
  | nil => rfl
  | cons op rest ih =>
    have hop : opKey op ≠ q := h op (List.mem_cons_self op rest)
    have hq : ¬ q = opKey op := fun hh => hop hh.symm
    have hrest : ∀ op2 ∈ rest, opKey op2 ≠ q := fun op2 h2 => h op2 (List.mem_cons_of_mem op h2)
    have hstep : applyBatch st (op :: rest) = applyBatch (applyOp st op) rest := rfl
    rw [hstep, ih (applyOp st op) hrest]
    cases op with
    | put a va => simp [applyOp, storeGet_put, opKey] at hq ⊢; simp [hq]
    | del a => simp [applyOp, storeGet_del, opKey] at hq ⊢; simp [hq]

lemma dataKey_ne_markerKey (c : Config) (k k2 : K) (h : c.baseNs ≠ []) :
    dataKey k ≠ markerKey c k2 := by
  intro hh
  have hl := congrArg List.length hh
  simp [dataKey, markerKey] at hl
  exact h hl

lemma dataKey_ne_expiryKey (c : Config) (k : K) (t : Nat) (k2 : K) :
    dataKey k ≠ expiryKey c t k2 := by
  intro hh
  have hl := congrArg List.length hh
  simp [dataKey, expiryKey, Config.expiryNs] at hl

lemma storeGet_after_pair (st : Store) (a b : CKey) (va vb : Val) :
    storeGet (applyBatch st [BatchOp.put a va, BatchOp.put b vb]) b = some vb := by
  simp [applyBatch, applyOp, storeGet_put]

/-- The state reached by one failure-free ttlon on a single key: the clear
batch is empty or deletes one reconstructed pair, and the write batch then
puts the new ScheduleEntry and ExpiryMarker atomically. -/
lemma ttlonRun_state (c : Config) (db : DB) (k : K) (now ttl : Nat) :
    ∃ cl : List BatchOp,
      (cl = [] ∨ ∃ t0, cl = [BatchOp.del (expiryKey c t0 k), BatchOp.del (markerKey c k)]) ∧
      (ttlonRun c db [k] now ttl).db
        = metaBatch c (if cl.isEmpty then db else metaBatch c db cl)
            [BatchOp.put (expiryKey c (now + ttl) k) (encKey k),
             BatchOp.put (markerKey c k) (encTime (now + ttl))] := by
  unfold ttlonRun ttlonE ttloffE
  cases hm : storeGet (metaStore c db) (markerKey c k) with
  | none =>
    refine ⟨[], Or.inl rfl, ?_⟩
    simp [clearOpsE, clearOpsFor, storeOracle, hm, schedOps, noFail]
  | some v0 =>
    refine ⟨[BatchOp.del (expiryKey c (decodeTime v0) k), BatchOp.del (markerKey c k)],
      Or.inr ⟨decodeTime v0, rfl⟩, ?_⟩
    simp [clearOpsE, clearOpsFor, storeOracle, hm, schedOps, noFail]

/-- Claim C7, counterexample: a put whose metadata batch write fails still
resolves successfully: the outcome reflects only the host data put, while the
setExpiry failure is emitted on the error channel, so the call can succeed
although not both of its two halves succeeded. -/
theorem put_succeeds_despite_meta_failure :
    (putE cM 0 dbEmpty (some "a") (some (Val.user "v")) (some 5) 0 none
        (fun _ => some "boom")).2 = none ∧
    (putE cM 0 dbEmpty (some "a") (some (Val.user "v")) (some 5) 0 none
        (fun _ => some "boom")).1.emitted = ["boom"] := by
  constructor <;> rfl

/-- Claim C7 (amended): put applies a positive configured default TTL when the
ttl option is absent; with a positive effective ttl and non-null key and value
it performs the data put and setExpiry(key, now+ttl) together, the data entry
and the new ExpiryMarker are both present afterwards on the failure-free path,
and the call's outcome is exactly the host data put's outcome (a metadata
failure is emitted, not propagated -- see the counterexample); with a
non-positive ttl the put is delegated with no metadata batch issued and
nothing emitted. -/
theorem put_default_ttl_and_outcome (c : Config) (defTTL : Nat) (db : DB) (k : K)
    (v : Val) (now : Nat) (hostPutErr : Option Err) (bO : List BatchOp → Option Err)
    (dt t0 : Int) (hw : c.baseNs ≠ [] ∨ c.hasSub = true)
    (hd : 0 < defTTL) (hdt : 0 < dt) (ht0 : t0 ≤ 0) :
    putE c defTTL db (some k) (some v) none now hostPutErr bO
      = putE c defTTL db (some k) (some v) (some (Int.ofNat defTTL)) now hostPutErr bO ∧
    (putE c defTTL db (some k) (some v) (some dt) now hostPutErr bO).2 = hostPutErr ∧
    storeGet ((putE c defTTL db (some k) (some v) (some dt) now none noFail).1.db).main
        (dataKey k) = some v ∧
    storeGet (metaStore c ((putE c defTTL db (some k) (some v) (some dt) now none noFail).1.db))
        (markerKey c k) = some (encTime (now + dt.toNat)) ∧
    (putE c defTTL db (some k) (some v) (some t0) now hostPutErr bO).1.issued = [] ∧
    (putE c defTTL db (some k) (some v) (some t0) now hostPutErr bO).1.emitted = [] := by
  have hdtp : ttlPos (effectiveTtl defTTL (some dt)) = true := by
    simp [ttlPos, effectiveTtl, hdt]
  have ht0n : ttlPos (effectiveTtl defTTL (some t0)) = false := by
    simp [ttlPos, effectiveTtl]
    omega
  have hdtp2 : ttlPos (some dt) = true := by
    simp [ttlPos, hdt]
  have hput : (putE c defTTL db (some k) (some v) (some dt) now none noFail).1
      = ttlonRun c (dataPut db k v) [k] now dt.toNat := by
    simp [putE, hdtp2, ttlonRun, ttlNat, effectiveTtl]
  refine ⟨?_, ?_, ?_, ?_, ?_, ?_⟩
  · have he : effectiveTtl defTTL (none : Option Int) = some (Int.ofNat defTTL) := by
      simp [effectiveTtl, hd]
    unfold putE
    rw [he]
    rfl
  · by_cases hp : ttlPos (effectiveTtl defTTL (some dt)) = true <;> simp [putE, hp]
  · rw [hput]
    rcases ttlonRun_state c (dataPut db k v) k now dt.toNat with ⟨cl, hcl, hdb⟩
    rw [hdb]
    by_cases hs : c.hasSub = true
    · have hmain : ∀ (db2 : DB) (ops : List BatchOp), (metaBatch c db2 ops).main = db2.main := by
        intro db2 ops
        simp [metaBatch, hs]
      rw [hmain]
      rcases hcl with rfl | ⟨t0c, rfl⟩
      · simp [dataPut, storeGet_put]
      · rw [show (([BatchOp.del (expiryKey c t0c k), BatchOp.del (markerKey c k)] :
            List BatchOp).isEmpty) = false from rfl]
        simp only [Bool.false_eq_true, if_false, hmain]
        simp [dataPut, storeGet_put]
    · have hb : c.baseNs ≠ [] := by
        rcases hw with hw | hw
        · exact hw
        · exact absurd hw hs
      have hmain : ∀ (db2 : DB) (ops : List BatchOp),
          (metaBatch c db2 ops).main = applyBatch db2.main ops := by
        intro db2 ops
        simp [metaBatch, hs]
      have hpair : ∀ op ∈ [BatchOp.put (expiryKey c (now + dt.toNat) k) (encKey k),
          BatchOp.put (markerKey c k) (encTime (now + dt.toNat))], opKey op ≠ dataKey k := by
        intro op hop
        rcases List.mem_pair.1 hop with rfl | rfl
        · exact fun hh => dataKey_ne_expiryKey c k (now + dt.toNat) k hh.symm
        · exact fun hh => dataKey_ne_markerKey c k k hb hh.symm
      rw [hmain, storeGet_applyBatch_ne _ _ _ hpair]
      rcases hcl with rfl | ⟨t0c, rfl⟩
      · simp [dataPut, storeGet_put]
      · have hclops : ∀ op ∈ [BatchOp.del (expiryKey c t0c k), BatchOp.del (markerKey c k)],
            opKey op ≠ dataKey k := by
          intro op hop
          rcases List.mem_pair.1 hop with rfl | rfl
          · exact fun hh => dataKey_ne_expiryKey c k t0c k hh.symm
          · exact fun hh => dataKey_ne_markerKey c k k hb hh.symm
        rw [show (([BatchOp.del (expiryKey c t0c k), BatchOp.del (markerKey c k)] :
            List BatchOp).isEmpty) = false from rfl]
        simp only [Bool.false_eq_true, if_false]
        rw [hmain, storeGet_applyBatch_ne _ _ _ hclops]
        simp [dataPut, storeGet_put]
  · rw [hput]
    rcases ttlonRun_state c (dataPut db k v) k now dt.toNat with ⟨cl, hcl, hdb⟩
    rw [hdb, metaStore_metaBatch, storeGet_after_pair]
  · simp [putE, ht0n]
  · simp [putE, ht0n]

/-- Witness for put_default_ttl_and_outcome. -/
theorem put_default_ttl_and_outcome_witness :
    putE cM 75 dbEmpty (some "a") (some (Val.user "v")) none 10 none noFail
      = putE cM 75 dbEmpty (some "a") (some (Val.user "v")) (some (Int.ofNat 75)) 10 none noFail ∧
    (putE cM 75 dbEmpty (some "a") (some (Val.user "v")) (some 5) 10 none noFail).2 = none ∧
    storeGet ((putE cM 75 dbEmpty (some "a") (some (Val.user "v")) (some 5) 10 none
        noFail).1.db).main (dataKey "a") = some (Val.user "v") ∧
    storeGet (metaStore cM ((putE cM 75 dbEmpty (some "a") (some (Val.user "v")) (some 5) 10
        none noFail).1.db)) (markerKey cM "a") = some (encTime (10 + (5 : Int).toNat)) ∧
    (putE cM 75 dbEmpty (some "a") (some (Val.user "v")) (some 0) 10 none noFail).1.issued = [] ∧
    (putE cM 75 dbEmpty (some "a") (some (Val.user "v")) (some 0) 10 none noFail).1.emitted = [] :=
  put_default_ttl_and_outcome cM 75 dbEmpty "a" (Val.user "v") 10 none noFail 5 0
    (Or.inl (by decide)) (by decide) (by decide) (by decide)

lemma schedOps_single (c : Config) (k : K) (t : Nat) :
    schedOps c [k] t = [BatchOp.put (expiryKey c t k) (encKey k),
      BatchOp.put (markerKey c k) (encTime t)] := rfl

lemma isSchedFor_marker (c : Config) (k k2 : K) :
    isSchedFor c k (markerKey c k2) = false := by
  simp [isSchedFor, schedTime_marker]

lemma isSchedFor_expiry_self (c : Config) (k : K) (t : Nat) :
    isSchedFor c k (expiryKey c t k) = true := by
  simp [isSchedFor, schedTime_expiry]

/-- After one failure-free ttlon on a single key starting from a state
satisfying the pair invariant, the key's ExpiryMarker holds the new expiry
time and exactly one ScheduleEntry for the key remains: the new one. -/
lemma ttlon_step (c : Config) (db : DB) (k : K) (now ttl : Nat)
    (h : goodFor c (metaStore c db) k) :
    storeGet (metaStore c (ttlonRun c db [k] now ttl).db) (markerKey c k)
        = some (encTime (now + ttl)) ∧
    schedFor c (metaStore c (ttlonRun c db [k] now ttl).db) k
        = [(expiryKey c (now + ttl) k, encKey k)] := by
  have hm1 : isSchedFor c k (markerKey c k) = false := isSchedFor_marker c k k
  have he1 : isSchedFor c k (expiryKey c (now + ttl) k) = true :=
    isSchedFor_expiry_self c k (now + ttl)
  have hmne : markerKey c k ≠ expiryKey c (now + ttl) k :=
    markerKey_ne_expiryKey c k (now + ttl) k
  rcases h with ⟨hm, hs⟩ | ⟨t0, v0, hm, hs⟩
  · have hstate : (ttlonRun c db [k] now ttl).db
        = metaBatch c db [BatchOp.put (expiryKey c (now + ttl) k) (encKey k),
            BatchOp.put (markerKey c k) (encTime (now + ttl))] := by
      unfold ttlonRun ttlonE ttloffE
      simp [clearOpsE, clearOpsFor, storeOracle, hm, schedOps, noFail]
    rw [hstate, metaStore_metaBatch]
    have hred : applyBatch (metaStore c db)
        [BatchOp.put (expiryKey c (now + ttl) k) (encKey k),
         BatchOp.put (markerKey c k) (encTime (now + ttl))]
        = storePut (storePut (metaStore c db) (expiryKey c (now + ttl) k) (encKey k))
            (markerKey c k) (encTime (now + ttl)) := rfl
    rw [hred]
    constructor
    · rw [storeGet_put]
      simp
    · rw [schedFor_put, if_neg (by simp [hm1]), schedFor_put, if_pos he1, List.filter_cons]
      simp [hs]
      exact fun hh => hmne hh.symm
  · have hstate : (ttlonRun c db [k] now ttl).db
        = metaBatch c (metaBatch c db
            [BatchOp.del (expiryKey c t0 k), BatchOp.del (markerKey c k)])
            [BatchOp.put (expiryKey c (now + ttl) k) (encKey k),
             BatchOp.put (markerKey c k) (encTime (now + ttl))] := by
      unfold ttlonRun ttlonE ttloffE
      simp [clearOpsE, clearOpsFor, storeOracle, hm, schedOps, noFail, encTime, decodeTime]
    rw [hstate, metaStore_metaBatch, metaStore_metaBatch]
    have hred1 : applyBatch (metaStore c db)
        [BatchOp.del (expiryKey c t0 k), BatchOp.del (markerKey c k)]
        = storeDel (storeDel (metaStore c db) (expiryKey c t0 k)) (markerKey c k) := rfl
    have hred : ∀ st : Store, applyBatch st
        [BatchOp.put (expiryKey c (now + ttl) k) (encKey k),
         BatchOp.put (markerKey c k) (encTime (now + ttl))]
        = storePut (storePut st (expiryKey c (now + ttl) k) (encKey k))
            (markerKey c k) (encTime (now + ttl)) := fun st => rfl
    rw [hred1, hred]
    constructor
    · rw [storeGet_put]
      simp
    · have hmid : schedFor c (storeDel (storeDel (metaStore c db) (expiryKey c t0 k))
          (markerKey c k)) k = [] := by
        rw [schedFor_del, schedFor_del, hs]
        simp [List.filter_cons]
      rw [schedFor_put, if_neg (by simp [hm1]), schedFor_put, if_pos he1, List.filter_cons]
      simp [hmid]
      exact fun hh => hmne hh.symm

/-- One failure-free ttlon re-establishes the pair invariant. -/
lemma ttlon_step_good (c : Config) (db : DB) (k : K) (now ttl : Nat)
    (h : goodFor c (metaStore c db) k) :
    goodFor c (metaStore c (ttlonRun c db [k] now ttl).db) k :=
  Or.inr ⟨now + ttl, encKey k, (ttlon_step c db k now ttl h).1,
    (ttlon_step c db k now ttl h).2⟩

lemma lastExpiry_cons_cons (nt nt2 : Nat × Nat) (rest : List (Nat × Nat)) :
    lastExpiry (nt :: nt2 :: rest) = lastExpiry (nt2 :: rest) := by
  simp [lastExpiry, List.getLast?_cons_cons]

lemma renewAll_post (c : Config) (db : DB) (k : K) (rs : List (Nat × Nat))
    (h : goodFor c (metaStore c db) k) (hrs : rs ≠ []) :
    storeGet (metaStore c (renewAll c db k rs)) (markerKey c k)
        = some (encTime (lastExpiry rs)) ∧
    schedFor c (metaStore c (renewAll c db k rs)) k
        = [(expiryKey c (lastExpiry rs) k, encKey k)] := by
  induction rs generalizing db with
  | nil => exact absurd rfl hrs
  | cons nt rest ih =>
    have hstep : renewAll c db k (nt :: rest)
        = renewAll c (ttlonRun c db [k] nt.1 nt.2).db k rest := rfl
    cases rest with
    | nil =>
      have h1 := ttlon_step c db k nt.1 nt.2 h
      rw [hstep]
      simpa [renewAll, lastExpiry] using h1
    | cons nt2 rest2 =>
      rw [hstep, lastExpiry_cons_cons]
      exact ih (ttlonRun c db [k] nt.1 nt.2).db (ttlon_step_good c db k nt.1 nt.2 h)
        (List.cons_ne_nil nt2 rest2)

lemma ttlonRun_issued (c : Config) (db : DB) (k : K) (now ttl : Nat) :
    (ttlonRun c db [k] now ttl).issued.getLast?
      = some [BatchOp.put (expiryKey c (now + ttl) k) (encKey k),
              BatchOp.put (markerKey c k) (encTime (now + ttl))] := by
  unfold ttlonRun ttlonE
  rw [schedOps_single]
  simp [noFail]

/-- Claim C1: starting from any state satisfying the pair invariant for a
key, every renewal of that key first clears the previous
ExpiryMarker/ScheduleEntry pair and then writes the new pair in one atomic
metadata batch (the last batch a ttlon issues always contains exactly the two
puts), and after any non-empty sequence of renewals exactly one live pair
remains for the key, timestamped with the last call's expiry time. -/
theorem setExpiry_unique_pair (c : Config) (db : DB) (k : K) (rs : List (Nat × Nat))
    (h : goodFor c (metaStore c db) k) (hrs : rs ≠ []) :
    storeGet (metaStore c (renewAll c db k rs)) (markerKey c k)
        = some (encTime (lastExpiry rs)) ∧
    schedFor c (metaStore c (renewAll c db k rs)) k
        = [(expiryKey c (lastExpiry rs) k, encKey k)] ∧
    (∀ db2 now ttl, (ttlonRun c db2 [k] now ttl).issued.getLast?
      = some [BatchOp.put (expiryKey c (now + ttl) k) (encKey k),
              BatchOp.put (markerKey c k) (encTime (now + ttl))]) :=
  ⟨(renewAll_post c db k rs h hrs).1, (renewAll_post c db k rs h hrs).2,
    fun db2 now ttl => ttlonRun_issued c db2 k now ttl⟩

/-- Witness for setExpiry_unique_pair: two renewals of bar (expiry 15, then
27) starting from the empty store. -/
theorem setExpiry_unique_pair_witness :
    storeGet (metaStore cM (renewAll cM dbEmpty "bar" [(10, 5), (20, 7)])) (markerKey cM "bar")
      = some (encTime (lastExpiry [(10, 5), (20, 7)])) ∧
    schedFor cM (metaStore cM (renewAll cM dbEmpty "bar" [(10, 5), (20, 7)])) "bar"
      = [(expiryKey cM (lastExpiry [(10, 5), (20, 7)]) "bar", encKey "bar")] ∧
    (ttlonRun cM dbEmpty ["bar"] 3 4).issued.getLast?
      = some [BatchOp.put (expiryKey cM (3 + 4) "bar") (encKey "bar"),
              BatchOp.put (markerKey cM "bar") (encTime (3 + 4))] := by
  have h := setExpiry_unique_pair cM dbEmpty "bar" [(10, 5), (20, 7)]
    (Or.inl ⟨rfl, rfl⟩) (by decide)
  exact ⟨h.1, h.2.1, h.2.2 dbEmpty 3 4⟩

end LevelTtl
